import Mathlib

/-!
Shallow embedding of the density-control core of
`easyvolcap/utils/gaussian_utils2.py` (class `GaussianModel` and the
geometric helpers it uses).

Tensors become lists of exact rationals, one list entry per point row.
The IEEE-754 special values produced by the zero divisions in
`densify_and_prune` are modelled explicitly by `FpVal`.  The neural
regressor that recomputes scale / rotation / opacity from the stored
positions on every property access (`get_scaling`, `get_rotation`,
`get_opacity`, `get_bunch`) is kept abstract as a length-preserving
function of the position array, mirroring that those attributes are not
stored per point in this source file.
-/

/-- FpVal models the IEEE-754 value classification relevant to the code:
a finite value (kept exact as a rational), the infinities produced by
dividing a nonzero value by zero, and the NaN produced by `0 / 0`. -/
inductive FpVal where
  | fin : ℚ → FpVal
  | posInf : FpVal
  | negInf : FpVal
  | nan : FpVal
deriving DecidableEq

/-- Division `a / d` of finite operands with the IEEE zero-division rules
(`0/0 = NaN`, `a/0 = ±Inf` for `a ≠ 0`), as performed by
`self.xyz_gradient_accum / self.denom`. -/
def fpDiv (a d : ℚ) : FpVal :=
  if d = 0 then (if a = 0 then FpVal.nan else if 0 < a then FpVal.posInf else FpVal.negInf)
  else FpVal.fin (a / d)

/-- Embedding of `grads[grads.isnan()] = 0.0`: NaN entries become 0,
everything else (infinities included) passes through. -/
def sanitizeNaN : FpVal → FpVal
  | FpVal.nan => FpVal.fin 0
  | v => v

/-- Row norm `torch.norm(·, dim=-1)` of a `(·, 1)`-shaped row: the
absolute value of its single entry. -/
def fpAbs : FpVal → FpVal
  | FpVal.fin q => FpVal.fin |q|
  | FpVal.posInf => FpVal.posInf
  | FpVal.negInf => FpVal.posInf
  | FpVal.nan => FpVal.nan

/-- IEEE comparison `x >= t` against a finite threshold: NaN compares
false, `+Inf` compares true. -/
def fpGe (x : FpVal) (t : ℚ) : Bool :=
  match x with
  | FpVal.fin q => decide (t ≤ q)
  | FpVal.posInf => true
  | FpVal.negInf => false
  | FpVal.nan => false

/-- A float value that is finite and nonnegative. -/
def nonnegFin : FpVal → Bool
  | FpVal.fin q => decide (0 ≤ q)
  | _ => false

structure Vec3 where
  x : ℚ
  y : ℚ
  z : ℚ
deriving DecidableEq

/-- Quaternion with components in the order the source unpacks them:
`r = q[:, 0]` (scalar part), then `x, y, z`. -/
structure Quat where
  r : ℚ
  x : ℚ
  y : ℚ
  z : ℚ
deriving DecidableEq

structure Mat3 where
  m00 : ℚ
  m01 : ℚ
  m02 : ℚ
  m10 : ℚ
  m11 : ℚ
  m12 : ℚ
  m20 : ℚ
  m21 : ℚ
  m22 : ℚ
deriving DecidableEq

/-- The 6 lower-triangular-packed covariance values in the order
`strip_lowerdiag` reads them: `[0,0], [0,1], [0,2], [1,1], [1,2], [2,2]`. -/
structure Sym6 where
  c00 : ℚ
  c01 : ℚ
  c02 : ℚ
  c11 : ℚ
  c12 : ℚ
  c22 : ℚ
deriving DecidableEq

def matMul (a b : Mat3) : Mat3 :=
  { m00 := a.m00 * b.m00 + a.m01 * b.m10 + a.m02 * b.m20
    m01 := a.m00 * b.m01 + a.m01 * b.m11 + a.m02 * b.m21
    m02 := a.m00 * b.m02 + a.m01 * b.m12 + a.m02 * b.m22
    m10 := a.m10 * b.m00 + a.m11 * b.m10 + a.m12 * b.m20
    m11 := a.m10 * b.m01 + a.m11 * b.m11 + a.m12 * b.m21
    m12 := a.m10 * b.m02 + a.m11 * b.m12 + a.m12 * b.m22
    m20 := a.m20 * b.m00 + a.m21 * b.m10 + a.m22 * b.m20
    m21 := a.m20 * b.m01 + a.m21 * b.m11 + a.m22 * b.m21
    m22 := a.m20 * b.m02 + a.m21 * b.m12 + a.m22 * b.m22 }

def transpose3 (a : Mat3) : Mat3 :=
  { m00 := a.m00, m01 := a.m10, m02 := a.m20
    m10 := a.m01, m11 := a.m11, m12 := a.m21
    m20 := a.m02, m21 := a.m12, m22 := a.m22 }

def mulVec3 (a : Mat3) (v : Vec3) : Vec3 :=
  { x := a.m00 * v.x + a.m01 * v.y + a.m02 * v.z
    y := a.m10 * v.x + a.m11 * v.y + a.m12 * v.z
    z := a.m20 * v.x + a.m21 * v.y + a.m22 * v.z }

def vadd (a b : Vec3) : Vec3 := ⟨a.x + b.x, a.y + b.y, a.z + b.z⟩

def smul3 (c : ℚ) (v : Vec3) : Vec3 := ⟨c * v.x, c * v.y, c * v.z⟩

/-- Diagonal matrix `L` with `L[0,0] = s[0]`, `L[1,1] = s[1]`,
`L[2,2] = s[2]`, as assembled inside `build_scaling_rotation`. -/
def diag3 (s : Vec3) : Mat3 :=
  { m00 := s.x, m01 := 0, m02 := 0
    m10 := 0, m11 := s.y, m12 := 0
    m20 := 0, m21 := 0, m22 := s.z }

/-- Row maximum `torch.max(·, dim=1).values` of a 3-component row. -/
def max3 (v : Vec3) : ℚ := max v.x (max v.y v.z)

/-- Embedding of `build_rotation`: the source divides `q` by its norm
(a square root) and then only ever uses degree-2 products of the
normalized components, so each entry is the corresponding degree-2
product of the raw components divided by the squared norm `n`, which
stays inside ℚ.  A zero quaternion divides by zero (NaN in the source);
theorems about this function carry a nonzero hypothesis. -/
def build_rotation (q : Quat) : Mat3 :=
  let n := q.r * q.r + q.x * q.x + q.y * q.y + q.z * q.z
  { m00 := 1 - 2 * (q.y * q.y + q.z * q.z) / n
    m01 := 2 * (q.x * q.y - q.r * q.z) / n
    m02 := 2 * (q.x * q.z + q.r * q.y) / n
    m10 := 2 * (q.x * q.y + q.r * q.z) / n
    m11 := 1 - 2 * (q.x * q.x + q.z * q.z) / n
    m12 := 2 * (q.y * q.z - q.r * q.x) / n
    m20 := 2 * (q.x * q.z - q.r * q.y) / n
    m21 := 2 * (q.y * q.z + q.r * q.x) / n
    m22 := 1 - 2 * (q.x * q.x + q.y * q.y) / n }

/-- Embedding of `build_scaling_rotation`: `L = R @ diag(s)`. -/
def build_scaling_rotation (s : Vec3) (q : Quat) : Mat3 :=
  matMul (build_rotation q) (diag3 s)

/-- Embedding of `strip_lowerdiag` on one row of the batch. -/
def strip_lowerdiag (l : Mat3) : Sym6 :=
  ⟨l.m00, l.m01, l.m02, l.m11, l.m12, l.m22⟩

def strip_symmetric (sym : Mat3) : Sym6 := strip_lowerdiag sym

/-- Embedding of the `build_covariance_from_scaling_rotation` closure set
up in `setup_functions`: `L = build_scaling_rotation(modifier * scaling,
rotation)`, then the packed values of `L @ L.transpose(1, 2)`. -/
def build_covariance_from_scaling_rotation (scaling : Vec3) (scaling_modifier : ℚ) (rotation : Quat) : Sym6 :=
  strip_symmetric (matMul (build_scaling_rotation (smul3 scaling_modifier scaling) rotation)
    (transpose3 (build_scaling_rotation (smul3 scaling_modifier scaling) rotation)))

/-- Quadratic form `vᵀ M v` of a 3x3 matrix. -/
def quadForm (m : Mat3) (v : Vec3) : ℚ :=
  v.x * (m.m00 * v.x + m.m01 * v.y + m.m02 * v.z) +
  v.y * (m.m10 * v.x + m.m11 * v.y + m.m12 * v.z) +
  v.z * (m.m20 * v.x + m.m21 * v.y + m.m22 * v.z)

/-- Unpacking of the 6 packed values back into the symmetric matrix they
stand for. -/
def unpackSym (u : Sym6) : Mat3 :=
  { m00 := u.c00, m01 := u.c01, m02 := u.c02
    m10 := u.c01, m11 := u.c11, m12 := u.c12
    m20 := u.c02, m21 := u.c12, m22 := u.c22 }

/-- A matrix is symmetric when the three mirrored off-diagonal pairs
agree. -/
def Mat3.symm3 (m : Mat3) : Prop :=
  m.m01 = m.m10 ∧ m.m02 = m.m20 ∧ m.m12 = m.m21

/-- Positive semi-definiteness via the quadratic form. -/
def Mat3.psd (m : Mat3) : Prop :=
  ∀ v : Vec3, 0 ≤ quadForm m v

/-- Torch boolean-mask row indexing `xs[mask]`: keep the rows whose mask
entry is true, in order. -/
def maskSelect {α : Type} : List α → List Bool → List α
  | x :: xs, b :: bs => if b then x :: maskSelect xs bs else maskSelect xs bs
  | _, _ => []

def countTrue (bs : List Bool) : ℕ := bs.count true

/-- Torch `.repeat(n, 1)` on a batch of rows: `n` copies of the batch
concatenated. -/
def repeatRows {α : Type} (n : ℕ) (xs : List α) : List α :=
  (List.replicate n xs).flatten

def zipWith3 {α β γ δ : Type} (f : α → β → γ → δ) : List α → List β → List γ → List δ
  | a :: as, b :: bs, c :: cs => f a b c :: zipWith3 f as bs cs
  | _, _, _ => []

/-- Scatter-assignment `dest[positions] = vs` where `positions` is the
boolean mask given as the first list: positions carrying `true` receive
the next value of `vs` in order, positions carrying `false` keep their
old (`false`) value.  This is the shape of the
`old_keep_mask[_old_keep_mask] = mask_mask` step, whose destination is
`false` everywhere outside the scatter positions. -/
def scatterMask : List Bool → List Bool → List Bool
  | [], _ => []
  | true :: bs, vs => vs.headD false :: scatterMask bs vs.tail
  | false :: bs, vs => false :: scatterMask bs vs

/-- Masked accumulation `acc[filter] += gs` where `gs` holds one value
per selected row, in order (the shape of
`xyz_gradient_accum[update_filter] += norm(...)`). -/
def addAtMask : List ℚ → List Bool → List ℚ → List ℚ
  | [], _, _ => []
  | as, [], _ => as
  | a :: as, f :: fs, gs =>
      if f then (a + gs.headD 0) :: addAtMask as fs gs.tail
      else a :: addAtMask as fs gs

/-- Masked increment `denom[update_filter] += 1`. -/
def incAtMask : List ℚ → List Bool → List ℚ
  | [], _ => []
  | ds, [] => ds
  | d :: ds, f :: fs => (if f then d + 1 else d) :: incAtMask ds fs

/-- Python truthiness of the optional float `max_screen_size`:
`None` and `0` are falsy. -/
def optTruthy : Option ℚ → Bool
  | none => false
  | some v => decide (v ≠ 0)

/-- The per-point state stored on the model in this source file: the only
stored parameter array is `_xyz` (all other attribute arrays are
commented out and recomputed by the regressor), plus the three
densification statistics buffers. -/
structure GaussianModel where
  xyz : List Vec3
  xyz_gradient_accum : List ℚ
  denom : List ℚ
  max_radii2D : List ℚ
deriving DecidableEq

/-- One entry of the external `optimizer_state` dict as this file
manipulates it: per-row keep masks for the pass bookkeeping, plus the
references `new_params` / `params` it stores to the (single, `_xyz`)
parameter array.  The trailing per-row width of `new_keep`
(`zeros_like` of an `(k, 3)` block) is fixed, so rows are modelled as
single booleans and the leading dimension is the list length. -/
structure OptEntry where
  old_keep : List Bool
  new_keep : List Bool
  new_params : List Vec3
  params : List Vec3
deriving DecidableEq

/-- The neural attribute provider behind `get_bunch` / `get_scaling` /
`get_rotation` / `get_opacity`: an arbitrary function of the whole
stored position array producing one `(scale3, rot4, alpha)` row per
point.  `bunch_len` records that the regressor returns one output row
per input row. -/
structure Regressor where
  bunch : List Vec3 → List (Vec3 × Quat × ℚ)
  bunch_len : ∀ xs, (bunch xs).length = xs.length

def get_scaling (reg : Regressor) (xyz : List Vec3) : List Vec3 :=
  (reg.bunch xyz).map (fun t => t.1)

def get_rotation (reg : Regressor) (xyz : List Vec3) : List Quat :=
  (reg.bunch xyz).map (fun t => t.2.1)

def get_opacity (reg : Regressor) (xyz : List Vec3) : List ℚ :=
  (reg.bunch xyz).map (fun t => t.2.2)

/-- Embedding of `GaussianModel.prune_points`: the argument is inverted
into `valid_points_mask = ~mask` and every buffer the method touches
(`_xyz`, `xyz_gradient_accum`, `denom`, `max_radii2D`) is filtered by
that inverted mask.  The method does not receive or update the external
optimizer state. -/
def prune_points (m : GaussianModel) (mask : List Bool) : GaussianModel :=
  let valid_points_mask := mask.map (fun b => !b)
  { xyz := maskSelect m.xyz valid_points_mask
    xyz_gradient_accum := maskSelect m.xyz_gradient_accum valid_points_mask
    denom := maskSelect m.denom valid_points_mask
    max_radii2D := maskSelect m.max_radii2D valid_points_mask }

/-- Embedding of `GaussianModel.densification_postfix`: append `new_xyz`
to the stored positions, reset the three statistics buffers to zeros of
the new length, and for every optimizer-state entry append all-false
keep rows for the new points and refresh the `new_params` reference
(the dict `d` contains exactly the `_xyz` entry). -/
def densification_postfix (m : GaussianModel) (new_xyz : List Vec3) (opt : List OptEntry) :
    GaussianModel × List OptEntry :=
  let xyz' := m.xyz ++ new_xyz
  let m' : GaussianModel :=
    { xyz := xyz'
      xyz_gradient_accum := List.replicate xyz'.length 0
      denom := List.replicate xyz'.length 0
      max_radii2D := List.replicate xyz'.length 0 }
  let opt' := opt.map fun v =>
    { v with new_keep := v.new_keep ++ List.replicate new_xyz.length false
             new_params := xyz' }
  (m', opt')

/-- The gradient test of `densify_and_clone`:
`torch.norm(grads, dim=-1) >= grad_threshold` on an `(M, 1)` row. -/
def clone_grad_test (g : FpVal) (grad_threshold : ℚ) : Bool :=
  fpGe (fpAbs g) grad_threshold

/-- The gradient test of `densify_and_split`:
`padded_grad >= grad_threshold` on the squeezed raw value. -/
def split_grad_test (g : FpVal) (grad_threshold : ℚ) : Bool :=
  fpGe g grad_threshold

/-- Selection mask of `densify_and_clone`: gradient-norm test AND
`torch.max(self.get_scaling, dim=1).values <= percent_dense *
scene_extent`. -/
def clone_selected_mask (reg : Regressor) (xyz : List Vec3) (grads : List FpVal)
    (grad_threshold scene_extent percent_dense : ℚ) : List Bool :=
  List.zipWith (fun g s => clone_grad_test g grad_threshold &&
    decide (max3 s ≤ percent_dense * scene_extent)) grads (get_scaling reg xyz)

/-- Embedding of `GaussianModel.densify_and_clone`: select, copy the
selected position rows, and run `densification_postfix`. -/
def densify_and_clone (reg : Regressor) (m : GaussianModel) (grads : List FpVal)
    (grad_threshold scene_extent percent_dense : ℚ) (opt : List OptEntry) :
    GaussianModel × List OptEntry :=
  let selected_pts_mask := clone_selected_mask reg m.xyz grads grad_threshold scene_extent percent_dense
  let new_xyz := maskSelect m.xyz selected_pts_mask
  densification_postfix m new_xyz opt

/-- The zero-padded gradient vector of `densify_and_split`:
`padded_grad = zeros(n_init_points); padded_grad[:grads.shape[0]] =
grads.squeeze()`. -/
def padded_grads (grads : List FpVal) (n_init_points : ℕ) : List FpVal :=
  grads.take n_init_points ++ List.replicate (n_init_points - grads.length) (FpVal.fin 0)

/-- Selection mask of `densify_and_split`: raw padded-gradient test AND
`torch.max(scaling, dim=1).values > percent_dense * scene_extent`. -/
def split_selected_mask (reg : Regressor) (xyz : List Vec3) (grads : List FpVal)
    (grad_threshold scene_extent percent_dense : ℚ) : List Bool :=
  List.zipWith (fun g s => split_grad_test g grad_threshold &&
    decide (percent_dense * scene_extent < max3 s))
    (padded_grads grads xyz.length) (get_scaling reg xyz)

/-- New positions generated by `densify_and_split`: the selected
rotations are turned into matrices and tiled `n` times, the selected
parent positions are tiled the same way, and each new position is
`rot @ sample + parent` (`samples` stands for the draws of
`torch.normal(mean=0, std=stds)`, which are external randomness). -/
def split_new_xyz (reg : Regressor) (xyz : List Vec3) (sel : List Bool)
    (samples : List Vec3) (n : ℕ) : List Vec3 :=
  let rots := repeatRows n ((maskSelect (get_rotation reg xyz) sel).map build_rotation)
  let sel_xyz := repeatRows n (maskSelect xyz sel)
  zipWith3 (fun rm smp px => vadd (mulVec3 rm smp) px) rots samples sel_xyz

/-- The parent-removal filter of `densify_and_split`:
`cat(selected_pts_mask, zeros(n * selected.sum(), dtype=bool))`. -/
def split_prune_filter (sel : List Bool) (n : ℕ) : List Bool :=
  sel ++ List.replicate (n * countTrue sel) false

/-- The second prune mask of `densify_and_split`: opacity below
`min_opacity`, and only when `max_screen_size` is truthy also the
screen-radius test and the world-size test
`get_scaling.max(dim=1).values > 0.1 * scene_extent`, all on the model
state after the parent-removal prune. -/
def split_pass2_mask (reg : Regressor) (m2 : GaussianModel) (min_opacity : ℚ)
    (max_screen_size : Option ℚ) (scene_extent : ℚ) : List Bool :=
  let prune_mask := (get_opacity reg m2.xyz).map (fun a => decide (a < min_opacity))
  if optTruthy max_screen_size then
    let big_points_vs := m2.max_radii2D.map (fun r2 => decide (max_screen_size.getD 0 < r2))
    let big_points_ws := (get_scaling reg m2.xyz).map
      (fun s => decide ((1 / 10 : ℚ) * scene_extent < max3 s))
    List.zipWith (fun a b => a || b)
      (List.zipWith (fun a b => a || b) prune_mask big_points_vs) big_points_ws
  else prune_mask

/-- Embedding of `GaussianModel.densify_and_split`.  The in-place
`set_` writes of the source mean that the `new_params` reference stored
in each optimizer-state entry aliases the live `_xyz` parameter, so
after each `prune_points` the functional state records the pruned array
in `new_params` (and in the `params` field the loops assign). -/
def densify_and_split (reg : Regressor) (m : GaussianModel) (grads : List FpVal)
    (grad_threshold scene_extent percent_dense min_opacity : ℚ) (max_screen_size : Option ℚ)
    (opt : List OptEntry) (samples : List Vec3) (n : ℕ) : GaussianModel × List OptEntry :=
  let selected_pts_mask := split_selected_mask reg m.xyz grads grad_threshold scene_extent percent_dense
  let new_xyz := split_new_xyz reg m.xyz selected_pts_mask samples n
  let st1 := densification_postfix m new_xyz opt
  let prune_filter := split_prune_filter selected_pts_mask n
  let m2 := prune_points st1.1 prune_filter
  let old_keep_mask := (prune_filter.take grads.length).map (fun b => !b)
  let opt2 := st1.2.map fun v =>
    { v with old_keep := List.zipWith (fun a b => a && b) v.old_keep old_keep_mask
             new_keep := maskSelect v.new_keep (prune_filter.map (fun b => !b))
             new_params := m2.xyz
             params := m2.xyz }
  let prune_mask := split_pass2_mask reg m2 min_opacity max_screen_size scene_extent
  let m3 := prune_points m2 prune_mask
  let mask_mask := maskSelect old_keep_mask old_keep_mask
  let mask_mask2 := List.zipWith (fun mm p => if p then false else mm)
    mask_mask (prune_mask.take mask_mask.length)
  let old_keep_mask2 := scatterMask old_keep_mask mask_mask2
  let opt3 := opt2.map fun v =>
    { v with old_keep := List.zipWith (fun a b => a && b) v.old_keep old_keep_mask2
             new_keep := maskSelect v.new_keep (prune_mask.map (fun b => !b))
             new_params := m3.xyz
             params := m3.xyz }
  (m3, opt3)

/-- The averaged, NaN-sanitized gradient array of `densify_and_prune`:
`grads = xyz_gradient_accum / denom; grads[grads.isnan()] = 0.0`. -/
def averaged_grads (m : GaussianModel) : List FpVal :=
  List.zipWith (fun a d => sanitizeNaN (fpDiv a d)) m.xyz_gradient_accum m.denom

/-- Embedding of `GaussianModel.densify_and_prune`: compute the averaged
sanitized gradients once, then clone and split with that same array. -/
def densify_and_prune (reg : Regressor) (m : GaussianModel)
    (max_grad min_opacity extent : ℚ) (max_screen_size : Option ℚ) (percent_dense : ℚ)
    (opt : List OptEntry) (samples : List Vec3) (n : ℕ) : GaussianModel × List OptEntry :=
  let grads := averaged_grads m
  let st := densify_and_clone reg m grads max_grad extent percent_dense opt
  densify_and_split reg st.1 grads max_grad extent percent_dense min_opacity max_screen_size st.2 samples n

/-- Embedding of `GaussianModel.add_densification_stats`: accumulate the
screen-space gradient norms of the visible points and bump their
observation counts.  The 2-norm itself (an irrational square root) is
kept abstract: `grad_norms` holds the computed norms of the selected
rows, one value per true entry of `update_filter`, in order. -/
def add_densification_stats (m : GaussianModel) (grad_norms : List ℚ) (update_filter : List Bool) :
    GaussianModel :=
  { m with xyz_gradient_accum := addAtMask m.xyz_gradient_accum update_filter grad_norms
           denom := incAtMask m.denom update_filter }

/-- One density-control mutation of the point set, with the auxiliary
inputs each call consumes. -/
inductive Mutation where
  | clone (grads : List FpVal) (grad_threshold scene_extent percent_dense : ℚ)
  | split (grads : List FpVal) (grad_threshold scene_extent percent_dense min_opacity : ℚ)
      (max_screen_size : Option ℚ) (samples : List Vec3) (n : ℕ)
  | densifyPrune (max_grad min_opacity extent : ℚ) (max_screen_size : Option ℚ)
      (percent_dense : ℚ) (samples : List Vec3) (n : ℕ)

def applyMutation (reg : Regressor) (st : GaussianModel × List OptEntry) :
    Mutation → GaussianModel × List OptEntry
  | Mutation.clone grads gt se pd => densify_and_clone reg st.1 grads gt se pd st.2
  | Mutation.split grads gt se pd mo mss smp n =>
      densify_and_split reg st.1 grads gt se pd mo mss st.2 smp n
  | Mutation.densifyPrune mg mo e mss pd smp n =>
      densify_and_prune reg st.1 mg mo e mss pd st.2 smp n

def applyMutations (reg : Regressor) (ms : List Mutation) (st : GaussianModel × List OptEntry) :
    GaussianModel × List OptEntry :=
  ms.foldl (applyMutation reg) st

/-- The optimizer-state synchronization invariant checked by the shape
assertions of the source: every entry's keep bookkeeping has one row per
current point and its parameter reference is the current position
array. -/
def OptInv (m : GaussianModel) (opt : List OptEntry) : Prop :=
  ∀ v ∈ opt, v.new_keep.length = v.new_params.length ∧ v.new_params = m.xyz

/-- The accumulator invariant `add_densification_stats` maintains:
accumulated norms and counts are nonnegative and a point with no
observations has a zero accumulator. -/
def StatsInv (m : GaussianModel) : Prop :=
  ∀ p ∈ m.xyz_gradient_accum.zip m.denom, 0 ≤ p.1 ∧ 0 ≤ p.2 ∧ (p.2 = 0 → p.1 = 0)

/-- The logical per-point records: the four parallel buffers zipped
rowwise. -/
def GaussianModel.rows (m : GaussianModel) : List (Vec3 × ℚ × ℚ × ℚ) :=
  m.xyz.zip (m.xyz_gradient_accum.zip (m.denom.zip m.max_radii2D))

/-- A concrete pointwise regressor, used to instantiate witnesses and
counterexamples. -/
def mapReg (f : Vec3 → Vec3 × Quat × ℚ) : Regressor :=
  { bunch := fun xs => xs.map f
    bunch_len := fun xs => List.length_map xs f }

instance (m : GaussianModel) (opt : List OptEntry) : Decidable (OptInv m opt) :=
  inferInstanceAs (Decidable (∀ v ∈ opt, v.new_keep.length = v.new_params.length ∧ v.new_params = m.xyz))

instance (m : GaussianModel) : Decidable (StatsInv m) :=
  inferInstanceAs (Decidable (∀ p ∈ m.xyz_gradient_accum.zip m.denom,
    0 ≤ p.1 ∧ 0 ≤ p.2 ∧ (p.2 = 0 → p.1 = 0)))

/-- A concrete regressor giving every point unit scale, identity
rotation and opacity 1/2; used to instantiate witnesses and
counterexamples. -/
def constReg1 : Regressor :=
  mapReg fun _ => (⟨1, 1, 1⟩, ⟨1, 0, 0, 0⟩, (1 : ℚ) / 2)

/-- A concrete three-point model used by witnesses. -/
def sampleModel : GaussianModel :=
  ⟨[⟨0, 0, 0⟩, ⟨1, 0, 0⟩, ⟨2, 0, 0⟩], [1, 2, 3], [4, 5, 6], [7, 8, 9]⟩

/-- A concrete one-point model used by witnesses. -/
def sampleModel1 : GaussianModel := ⟨[⟨0, 0, 0⟩], [1], [1], [0]⟩

/-- A concrete optimizer state matching `sampleModel1`. -/
def sampleOpt1 : List OptEntry := [⟨[true], [false], [⟨0, 0, 0⟩], [⟨0, 0, 0⟩]⟩]

/-- A concrete mutation sequence (one clone, one split) used by
witnesses. -/
def sampleMuts : List Mutation :=
  [Mutation.clone [FpVal.fin 1] (1 / 2) 1 (1 / 100),
   Mutation.split [FpVal.fin 1] (1 / 2) 1 (1 / 100) 0 none [⟨0, 0, 0⟩, ⟨0, 0, 0⟩] 2]

theorem maskSelect_length {α : Type} :
    ∀ (xs : List α) (bs : List Bool), xs.length = bs.length →
      (maskSelect xs bs).length = countTrue bs
  | [], [], _ => rfl
  | [], _ :: _, h => by simp at h
  | _ :: _, [], h => by simp at h
  | x :: xs, b :: bs, h => by
      have ih := maskSelect_length xs bs (by simpa using h)
      cases b <;> simp [maskSelect, countTrue, List.count_cons] at ih ⊢ <;> omega

theorem maskSelect_length_congr {α β : Type} :
    ∀ (xs : List α) (ys : List β) (bs : List Bool), xs.length = ys.length →
      (maskSelect xs bs).length = (maskSelect ys bs).length
  | [], [], _, _ => by simp [maskSelect]
  | [], _ :: _, _, h => by simp at h
  | _ :: _, [], _, h => by simp at h
  | x :: xs, y :: ys, [], _ => by simp [maskSelect]
  | x :: xs, y :: ys, b :: bs, h => by
      have ih := maskSelect_length_congr xs ys bs (by simpa using h)
      cases b <;> simp [maskSelect, ih]

theorem maskSelect_zip {α β : Type} :
    ∀ (xs : List α) (ys : List β) (bs : List Bool), xs.length = ys.length →
      maskSelect (xs.zip ys) bs = (maskSelect xs bs).zip (maskSelect ys bs)
  | [], [], _, _ => by simp [maskSelect]
  | [], _ :: _, _, h => by simp at h
  | _ :: _, [], _, h => by simp at h
  | x :: xs, y :: ys, [], _ => by simp [maskSelect]
  | x :: xs, y :: ys, b :: bs, h => by
      have ih := maskSelect_zip xs ys bs (by simpa using h)
      cases b
      · simpa [maskSelect] using ih
      · simpa [maskSelect] using congrArg (List.cons (x, y)) ih

theorem maskSelect_append {α : Type} :
    ∀ (xs ys : List α) (bs cs : List Bool), xs.length = bs.length →
      maskSelect (xs ++ ys) (bs ++ cs) = maskSelect xs bs ++ maskSelect ys cs
  | [], ys, [], cs, _ => by simp [maskSelect]
  | [], _, _ :: _, _, h => by simp at h
  | _ :: _, _, [], _, h => by simp at h
  | x :: xs, ys, b :: bs, cs, h => by
      have ih := maskSelect_append xs ys bs cs (by simpa using h)
      cases b <;> simp [maskSelect, ih]

theorem maskSelect_replicate_true {α : Type} :
    ∀ (xs : List α), maskSelect xs (List.replicate xs.length true) = xs
  | [] => rfl
  | x :: xs => by simp [List.replicate_succ, maskSelect, maskSelect_replicate_true xs]

theorem zipWith_getElem?_some {α β γ : Type} (f : α → β → γ) :
    ∀ (as : List α) (bs : List β) (i : ℕ) (a : α) (b : β),
      as[i]? = some a → bs[i]? = some b →
      (List.zipWith f as bs)[i]? = some (f a b)
  | a' :: as, b' :: bs, 0, a, b, ha, hb => by
      simp at ha hb; simp [ha, hb]
  | a' :: as, b' :: bs, i + 1, a, b, ha, hb => by
      simpa using zipWith_getElem?_some f as bs i a b (by simpa using ha) (by simpa using hb)
  | [], _, i, a, b, ha, _ => by simp at ha
  | _ :: _, [], i, a, b, _, hb => by simp at hb

theorem mem_zipWith_exists {α β γ : Type} {f : α → β → γ} :
    ∀ {as : List α} {bs : List β} {c : γ}, c ∈ List.zipWith f as bs →
      ∃ a, a ∈ as ∧ ∃ b, b ∈ bs ∧ c = f a b := by
  intro as
  induction as with
  | nil => intro bs c h; simp at h
  | cons a as ih =>
      intro bs c h
      cases bs with
      | nil => simp at h
      | cons b bs =>
          rcases (by simpa using h : c = f a b ∨ c ∈ List.zipWith f as bs) with h' | h'
          · exact ⟨a, by simp, b, by simp, h'⟩
          · rcases ih h' with ⟨a', ha', b', hb', rfl⟩
            exact ⟨a', by simp [ha'], b', by simp [hb'], rfl⟩

theorem zipWith_drop {α β γ : Type} (f : α → β → γ) :
    ∀ (n : ℕ) (as : List α) (bs : List β),
      (List.zipWith f as bs).drop n = List.zipWith f (as.drop n) (bs.drop n)
  | 0, _, _ => rfl
  | n + 1, [], bs => by simp
  | n + 1, _ :: _, [] => by simp
  | n + 1, a :: as, b :: bs => by simpa using zipWith_drop f n as bs

theorem zipWith_congr_zip {α β γ : Type} {f g : α → β → γ} :
    ∀ {as : List α} {bs : List β},
      (∀ p ∈ as.zip bs, f p.1 p.2 = g p.1 p.2) →
      List.zipWith f as bs = List.zipWith g as bs := by
  intro as
  induction as with
  | nil => intro bs h; simp
  | cons a as ih =>
      intro bs h
      cases bs with
      | nil => simp
      | cons b bs =>
          have h0 := h (a, b) (by simp)
          simp only [List.zipWith_cons_cons, h0]
          exact congrArg _ (ih fun p hp => h p (by simp [hp]))

theorem repeatRows_succ {α : Type} (n : ℕ) (xs : List α) :
    repeatRows (n + 1) xs = xs ++ repeatRows n xs := by
  simp [repeatRows, List.replicate_succ]

theorem length_repeatRows {α : Type} (n : ℕ) (xs : List α) :
    (repeatRows n xs).length = n * xs.length := by
  induction n with
  | zero => simp [repeatRows]
  | succ k ih => rw [repeatRows_succ, List.length_append, ih, Nat.succ_mul]; omega

theorem getElem?_repeatRows {α : Type} :
    ∀ (n : ℕ) (xs : List α) (j : ℕ), j < n * xs.length →
      (repeatRows n xs)[j]? = xs[j % xs.length]?
  | 0, xs, j, h => by omega
  | n + 1, xs, j, h => by
      by_cases hj : j < xs.length
      · rw [repeatRows_succ, List.getElem?_append, if_pos hj, Nat.mod_eq_of_lt hj]
      · have hsm : j < n * xs.length + xs.length := by rw [Nat.succ_mul] at h; exact h
        have hle : xs.length ≤ j := le_of_not_lt hj
        rw [repeatRows_succ, List.getElem?_append, if_neg hj,
          getElem?_repeatRows n xs (j - xs.length) (by omega),
          Nat.mod_eq_sub_mod hle]

theorem zipWith3_getElem?_some {α β γ δ : Type} (f : α → β → γ → δ) :
    ∀ (as : List α) (bs : List β) (cs : List γ) (i : ℕ) (a : α) (b : β) (c : γ),
      as[i]? = some a → bs[i]? = some b → cs[i]? = some c →
      (zipWith3 f as bs cs)[i]? = some (f a b c)
  | a' :: as, b' :: bs, c' :: cs, 0, a, b, c, ha, hb, hc => by
      simp at ha hb hc; simp [zipWith3, ha, hb, hc]
  | a' :: as, b' :: bs, c' :: cs, i + 1, a, b, c, ha, hb, hc => by
      simpa [zipWith3] using zipWith3_getElem?_some f as bs cs i a b c
        (by simpa using ha) (by simpa using hb) (by simpa using hc)
  | [], _, _, i, a, b, c, ha, _, _ => by simp at ha
  | _ :: _, [], _, i, a, b, c, _, hb, _ => by simp at hb
  | _ :: _, _ :: _, [], i, a, b, c, _, _, hc => by simp at hc

theorem zipWith3_length {α β γ δ : Type} (f : α → β → γ → δ) :
    ∀ (as : List α) (bs : List β) (cs : List γ),
      (zipWith3 f as bs cs).length = min as.length (min bs.length cs.length)
  | a :: as, b :: bs, c :: cs => by
      simp [zipWith3, zipWith3_length f as bs cs]; omega
  | [], bs, cs => by simp [zipWith3]
  | _ :: _, [], cs => by simp [zipWith3]
  | _ :: _, _ :: _, [] => by simp [zipWith3]

theorem get_scaling_length (reg : Regressor) (xyz : List Vec3) :
    (get_scaling reg xyz).length = xyz.length := by
  simp [get_scaling, reg.bunch_len]

theorem get_rotation_length (reg : Regressor) (xyz : List Vec3) :
    (get_rotation reg xyz).length = xyz.length := by
  simp [get_rotation, reg.bunch_len]

theorem get_opacity_length (reg : Regressor) (xyz : List Vec3) :
    (get_opacity reg xyz).length = xyz.length := by
  simp [get_opacity, reg.bunch_len]

theorem padded_grads_length (grads : List FpVal) (n : ℕ) (h : grads.length ≤ n) :
    (padded_grads grads n).length = n := by
  simp [padded_grads]; omega

theorem padded_grads_of_le (grads : List FpVal) (n : ℕ) (h : grads.length ≤ n) :
    padded_grads grads n = grads ++ List.replicate (n - grads.length) (FpVal.fin 0) := by
  rw [padded_grads, List.take_of_length_le h]

theorem split_selected_mask_length (reg : Regressor) (xyz : List Vec3) (grads : List FpVal)
    (gt se pd : ℚ) (h : grads.length ≤ xyz.length) :
    (split_selected_mask reg xyz grads gt se pd).length = xyz.length := by
  simp [split_selected_mask, List.length_zipWith, get_scaling_length,
    padded_grads_length grads xyz.length h]

theorem statsPair_addInc :
    ∀ (as ds : List ℚ) (fs : List Bool) (gs : List ℚ),
      (∀ p ∈ as.zip ds, 0 ≤ p.1 ∧ 0 ≤ p.2 ∧ (p.2 = 0 → p.1 = 0)) →
      (∀ x ∈ gs, 0 ≤ x) →
      ∀ p ∈ (addAtMask as fs gs).zip (incAtMask ds fs),
        0 ≤ p.1 ∧ 0 ≤ p.2 ∧ (p.2 = 0 → p.1 = 0)
  | [], ds, fs, gs, _, _ => by
      intro p hp; simp [addAtMask] at hp
  | a :: as, [], fs, gs, _, _ => by
      intro p hp
      cases fs <;> simp [addAtMask, incAtMask] at hp
  | a :: as, d :: ds, [], gs, h, _ => by
      simpa [addAtMask, incAtMask] using h
  | a :: as, d :: ds, f :: fs, gs, h, hg => by
      have hhead := h (a, d) (by simp)
      have htail : ∀ p ∈ as.zip ds, 0 ≤ p.1 ∧ 0 ≤ p.2 ∧ (p.2 = 0 → p.1 = 0) :=
        fun p hp => h p (by simp [hp])
      have hgt : ∀ x ∈ gs.tail, 0 ≤ x := by
        cases gs with
        | nil => intro x hx; simp at hx
        | cons g gs => intro x hx; exact hg x (by simp at hx ⊢; exact Or.inr hx)
      cases f
      · intro p hp
        rcases (by simpa [addAtMask, incAtMask] using hp :
            p = (a, d) ∨ p ∈ (addAtMask as fs gs).zip (incAtMask ds fs)) with rfl | hmem
        · exact hhead
        · exact statsPair_addInc as ds fs gs htail hg p hmem
      · intro p hp
        rcases (by simpa [addAtMask, incAtMask] using hp :
            p = (a + gs.headD 0, d + 1) ∨
              p ∈ (addAtMask as fs gs.tail).zip (incAtMask ds fs)) with rfl | hmem
        · have hg0 : 0 ≤ gs.headD 0 := by
            cases gs with
            | nil => simp
            | cons g gs => exact hg g (by simp)
          have hd1 : (0 : ℚ) < d + 1 := by linarith [hhead.2.1]
          exact ⟨add_nonneg hhead.1 hg0, le_of_lt hd1, fun hz => absurd hz (ne_of_gt hd1)⟩
        · exact statsPair_addInc as ds fs gs.tail htail hgt p hmem

theorem optInv_densification_postfix (m : GaussianModel) (new_xyz : List Vec3)
    (opt : List OptEntry) (h : OptInv m opt) :
    OptInv ( densification_postfix m new_xyz opt).1 ( densification_postfix m new_xyz opt).2 := by
  intro v hv
  simp only [ densification_postfix, List.mem_map] at hv
  rcases hv with ⟨w, hw, rfl⟩
  rcases h w hw with ⟨h1, h2⟩
  refine ⟨?_, rfl⟩
  simp [ densification_postfix, h1, h2]

theorem optInv_prune_sync (m : GaussianModel) (opt : List OptEntry) (pf : List Bool)
    (upd : OptEntry → OptEntry)
    (hkeep : ∀ v, (upd v).new_keep = maskSelect v.new_keep (pf.map (fun b => !b)))
    (hparams : ∀ v, (upd v).new_params = (prune_points m pf).xyz)
    (h : OptInv m opt) :
    OptInv (prune_points m pf) (opt.map upd) := by
  intro v hv
  rcases List.mem_map.1 hv with ⟨w, hw, rfl⟩
  rcases h w hw with ⟨h1, h2⟩
  refine ⟨?_, hparams w⟩
  rw [hkeep w, hparams w]
  have hlen : w.new_keep.length = m.xyz.length := by rw [h1, h2]
  simpa [prune_points] using
    maskSelect_length_congr w.new_keep m.xyz (pf.map (fun b => !b)) hlen

theorem optInv_densify_and_clone (reg : Regressor) (m : GaussianModel) (grads : List FpVal)
    (gt se pd : ℚ) (opt : List OptEntry) (h : OptInv m opt) :
    OptInv (densify_and_clone reg m grads gt se pd opt).1
      (densify_and_clone reg m grads gt se pd opt).2 :=
  optInv_densification_postfix m _ opt h

theorem optInv_densify_and_split (reg : Regressor) (m : GaussianModel) (grads : List FpVal)
    (gt se pd mo : ℚ) (mss : Option ℚ) (opt : List OptEntry) (samples : List Vec3) (n : ℕ)
    (h : OptInv m opt) :
    OptInv (densify_and_split reg m grads gt se pd mo mss opt samples n).1
      (densify_and_split reg m grads gt se pd mo mss opt samples n).2 :=
  optInv_prune_sync _ _ _ _ (fun _ => rfl) (fun _ => rfl)
    (optInv_prune_sync _ _ _ _ (fun _ => rfl) (fun _ => rfl)
      ( optInv_densification_postfix m _ opt h))

theorem optInv_densify_and_prune (reg : Regressor) (m : GaussianModel)
    (mg mo e : ℚ) (mss : Option ℚ) (pd : ℚ) (opt : List OptEntry) (samples : List Vec3)
    (n : ℕ) (h : OptInv m opt) :
    OptInv (densify_and_prune reg m mg mo e mss pd opt samples n).1
      (densify_and_prune reg m mg mo e mss pd opt samples n).2 :=
  optInv_densify_and_split reg _ _ mg e pd mo mss _ samples n
    (optInv_densify_and_clone reg m _ mg e pd opt h)

theorem optInv_applyMutation (reg : Regressor) (st : GaussianModel × List OptEntry)
    (mu : Mutation) (h : OptInv st.1 st.2) :
    OptInv (applyMutation reg st mu).1 (applyMutation reg st mu).2 := by
  cases mu with
  | clone grads gt se pd => exact optInv_densify_and_clone reg st.1 grads gt se pd st.2 h
  | split grads gt se pd mo mss smp n =>
      exact optInv_densify_and_split reg st.1 grads gt se pd mo mss st.2 smp n h
  | densifyPrune mg mo e mss pd smp n =>
      exact optInv_densify_and_prune reg st.1 mg mo e mss pd st.2 smp n h

theorem prune_points_rows (m : GaussianModel) (mask : List Bool)
    (hx : m.xyz.length = mask.length)
    (ha : m.xyz_gradient_accum.length = mask.length)
    (hd : m.denom.length = mask.length)
    (hr : m.max_radii2D.length = mask.length) :
    (prune_points m mask).rows = maskSelect m.rows (mask.map (fun b => !b)) := by
  have h2 : (m.xyz_gradient_accum.zip (m.denom.zip m.max_radii2D)).length = mask.length := by
    simp [List.length_zip]; omega
  simp only [GaussianModel.rows, prune_points]
  rw [maskSelect_zip m.xyz _ _ (by omega),
    maskSelect_zip m.xyz_gradient_accum _ _ (by simp [List.length_zip]; omega),
    maskSelect_zip m.denom m.max_radii2D _ (by omega)]

/-- C1 counterexample: `prune_points` does not keep the points where its
mask is true.  On a one-point model with mask `[true]` it returns zero
points while the count of true mask entries is one, so the claim that
`prune_points(keep_mask)` yields `count-of-true(keep_mask)` points fails
at this input. -/
theorem prune_points_keep_polarity_counterexample :
    countTrue [true] = 1 ∧
    (prune_points ⟨[⟨0, 0, 0⟩], [0], [0], [0]⟩ [true]).xyz.length = 0 := by decide

/-- C1 (amended): `prune_points(mask)` treats its argument as a removal
mask: it keeps exactly the `count-of-true(¬mask)` points where `mask` is
false, and the four buffers the method filters (`_xyz`,
`xyz_gradient_accum`, `denom`, `max_radii2D`) carry the same original
row data for every retained index, in the original relative order (the
zipped rows of the result are the mask-selected zipped rows of the
input).  The external optimizer state is not touched by `prune_points`
itself; its callers filter it separately. -/
theorem prune_points_amended (m : GaussianModel) (mask : List Bool)
    (hx : m.xyz.length = mask.length)
    (ha : m.xyz_gradient_accum.length = mask.length)
    (hd : m.denom.length = mask.length)
    (hr : m.max_radii2D.length = mask.length) :
    (prune_points m mask).xyz.length = countTrue (mask.map (fun b => !b)) ∧
    (prune_points m mask).rows = maskSelect m.rows (mask.map (fun b => !b)) := by
  constructor
  · have hxe : m.xyz.length = (mask.map (fun b => !b)).length := by simpa using hx
    simpa [prune_points] using maskSelect_length m.xyz (mask.map fun b => !b) hxe
  · exact prune_points_rows m mask hx ha hd hr

theorem prune_points_amended_witness :
    sampleModel.xyz.length = ([true, false, true] : List Bool).length ∧
    ((prune_points sampleModel [true, false, true]).xyz.length =
        countTrue (([true, false, true] : List Bool).map (fun b => !b)) ∧
      (prune_points sampleModel [true, false, true]).rows =
        maskSelect sampleModel.rows (([true, false, true] : List Bool).map (fun b => !b))) :=
  ⟨by decide, prune_points_amended sampleModel [true, false, true]
    (by decide) (by decide) (by decide) (by decide)⟩

/-- C6: for every starting state whose optimizer entries have one keep
row per point and reference the current parameter array, and every
sequence of clone / split / densify-and-prune mutations (with arbitrary
per-call gradients, thresholds and samples), the resulting state
satisfies the same property: every append grows each optimizer-state
buffer by rows matching the new points and every removal filters it with
the mask used for the parameter arrays, so the shape assertions
`val.new_keep.shape == val.new_params.shape` of the source hold after
every mutation. -/
theorem optimizer_state_rowcount_invariant (reg : Regressor) (ms : List Mutation)
    (m : GaussianModel) (opt : List OptEntry) (h : OptInv m opt) :
    OptInv (applyMutations reg ms (m, opt)).1 (applyMutations reg ms (m, opt)).2 := by
  induction ms generalizing m opt with
  | nil => exact h
  | cons mu ms ih =>
      have h1 := optInv_applyMutation reg (m, opt) mu h
      exact ih (applyMutation reg (m, opt) mu).1 (applyMutation reg (m, opt) mu).2 h1

theorem optimizer_state_rowcount_invariant_witness :
    OptInv sampleModel1 sampleOpt1 ∧
    OptInv (applyMutations constReg1 sampleMuts (sampleModel1, sampleOpt1)).1
      (applyMutations constReg1 sampleMuts (sampleModel1, sampleOpt1)).2 :=
  ⟨by decide,
    optimizer_state_rowcount_invariant constReg1 sampleMuts sampleModel1 sampleOpt1 (by decide)⟩

/-- C2: for every gradient array with one row per point,
`densify_and_clone` selects exactly the points whose gradient row-norm
passes `>= tau_grad` and whose max scale is `<= p_dense * E`, appends an
exact copy of every selected point's stored attribute row (the position,
the only stored per-point parameter) after the existing rows preserving
the selected points' relative order, removes nothing, leaves the three
statistics buffers as all-zero arrays sized to the new point count, and
pads every optimizer entry with one all-false keep row per new point. -/
theorem densify_and_clone_spec (reg : Regressor) (m : GaussianModel) (grads : List FpVal)
    (gt se pd : ℚ) (opt : List OptEntry) (sel : List Bool)
    (hg : grads.length = m.xyz.length)
    (hsel : sel = clone_selected_mask reg m.xyz grads gt se pd) :
    (∀ (i : ℕ) (g : FpVal) (s : Vec3), grads[i]? = some g →
      (get_scaling reg m.xyz)[i]? = some s →
      sel[i]? = some (clone_grad_test g gt && decide (max3 s ≤ pd * se))) ∧
    (densify_and_clone reg m grads gt se pd opt).1.xyz = m.xyz ++ maskSelect m.xyz sel ∧
    (densify_and_clone reg m grads gt se pd opt).1.xyz_gradient_accum =
      List.replicate (m.xyz.length + countTrue sel) 0 ∧
    (densify_and_clone reg m grads gt se pd opt).1.denom =
      List.replicate (m.xyz.length + countTrue sel) 0 ∧
    (densify_and_clone reg m grads gt se pd opt).1.max_radii2D =
      List.replicate (m.xyz.length + countTrue sel) 0 ∧
    (densify_and_clone reg m grads gt se pd opt).2 = opt.map (fun v =>
      { v with new_keep := v.new_keep ++ List.replicate (countTrue sel) false
               new_params := m.xyz ++ maskSelect m.xyz sel }) := by
  subst hsel
  have hsellen : (clone_selected_mask reg m.xyz grads gt se pd).length = m.xyz.length := by
    simp [clone_selected_mask, List.length_zipWith, get_scaling_length, hg]
  have hnewlen : (maskSelect m.xyz (clone_selected_mask reg m.xyz grads gt se pd)).length =
      countTrue (clone_selected_mask reg m.xyz grads gt se pd) :=
    maskSelect_length _ _ hsellen.symm
  refine ⟨?_, rfl, ?_, ?_, ?_, ?_⟩
  · intro i g s hgi hsi
    exact zipWith_getElem?_some _ grads (get_scaling reg m.xyz) i g s hgi hsi
  all_goals simp [densify_and_clone, densification_postfix, hnewlen]

theorem densify_and_clone_spec_witness :
    ([FpVal.fin 1] : List FpVal).length = sampleModel1.xyz.length ∧
    (densify_and_clone constReg1 sampleModel1 [FpVal.fin 1] (1 / 2) 1 2 sampleOpt1).1.xyz =
      sampleModel1.xyz ++ maskSelect sampleModel1.xyz [true] :=
  ⟨by decide,
    (densify_and_clone_spec constReg1 sampleModel1 [FpVal.fin 1] (1 / 2) 1 2 sampleOpt1
      [true] (by decide)
      (by norm_num [clone_selected_mask, get_scaling, constReg1, mapReg, clone_grad_test,
        fpAbs, fpGe, max3, sampleModel1])).2.1⟩

/-- C3: for every invocation of `densify_and_split` with branching
factor `n`, letting `sel` be the points whose zero-padded gradient
passes `>= tau_grad` with `max(scale) > p_dense * E`, exactly
`n * countTrue sel` new points are generated and appended after the
existing rows, the subsequent parent-removal prune removes exactly the
original selected points, and every pre-existing non-selected point (and
every new point) survives both of those steps, in order; the final
result of `densify_and_split` is the second prune pass applied on top of
that intermediate state. -/
theorem densify_and_split_counts (reg : Regressor) (m : GaussianModel) (grads : List FpVal)
    (gt se pd mo : ℚ) (mss : Option ℚ) (opt : List OptEntry) (samples : List Vec3) (n : ℕ)
    (sel : List Bool) (new_xyz : List Vec3)
    (hg : grads.length ≤ m.xyz.length)
    (hsel : sel = split_selected_mask reg m.xyz grads gt se pd)
    (hnew : new_xyz = split_new_xyz reg m.xyz sel samples n)
    (hs : samples.length = n * countTrue sel) :
    new_xyz.length = n * countTrue sel ∧
    ( densification_postfix m new_xyz opt).1.xyz = m.xyz ++ new_xyz ∧
    (prune_points ( densification_postfix m new_xyz opt).1 (split_prune_filter sel n)).xyz =
      maskSelect m.xyz (sel.map (fun b => !b)) ++ new_xyz ∧
    (densify_and_split reg m grads gt se pd mo mss opt samples n).1 =
      prune_points
        (prune_points ( densification_postfix m new_xyz opt).1 (split_prune_filter sel n))
        (split_pass2_mask reg
          (prune_points ( densification_postfix m new_xyz opt).1 (split_prune_filter sel n))
          mo mss se) := by
  have hsel2 : sel.length = m.xyz.length := by
    rw [hsel]; exact split_selected_mask_length reg m.xyz grads gt se pd hg
  have hxyzsel : (maskSelect m.xyz sel).length = countTrue sel :=
    maskSelect_length _ _ hsel2.symm
  have hrotsel : (maskSelect (get_rotation reg m.xyz) sel).length = countTrue sel :=
    maskSelect_length _ _ (by rw [get_rotation_length]; exact hsel2.symm)
  have hlen : new_xyz.length = n * countTrue sel := by
    rw [hnew]
    simp [split_new_xyz, zipWith3_length, length_repeatRows, List.length_map,
      hrotsel, hxyzsel, hs]
  have h3 : (prune_points ( densification_postfix m new_xyz opt).1 (split_prune_filter sel n)).xyz =
      maskSelect m.xyz (sel.map (fun b => !b)) ++ new_xyz := by
    show maskSelect (m.xyz ++ new_xyz)
        ((sel ++ List.replicate (n * countTrue sel) false).map (fun b => !b)) = _
    rw [List.map_append, maskSelect_append _ _ _ _ (by simpa using hsel2.symm)]
    congr 1
    rw [List.map_replicate]
    simp only [Bool.not_false]
    rw [← hlen, maskSelect_replicate_true]
  subst hnew
  subst hsel
  exact ⟨hlen, rfl, h3, rfl⟩

theorem densify_and_split_counts_witness :
    (([FpVal.fin 1] : List FpVal).length ≤ sampleModel1.xyz.length ∧
      ([true] : List Bool) =
        split_selected_mask constReg1 sampleModel1.xyz [FpVal.fin 1] (1 / 2) 1 (1 / 100) ∧
      ([⟨0, 0, 0⟩, ⟨0, 0, 0⟩] : List Vec3) =
        split_new_xyz constReg1 sampleModel1.xyz [true] [⟨0, 0, 0⟩, ⟨0, 0, 0⟩] 2 ∧
      ([⟨0, 0, 0⟩, ⟨0, 0, 0⟩] : List Vec3).length = 2 * countTrue [true]) ∧
    (prune_points ( densification_postfix sampleModel1 [⟨0, 0, 0⟩, ⟨0, 0, 0⟩] sampleOpt1).1
        (split_prune_filter [true] 2)).xyz =
      maskSelect sampleModel1.xyz (([true] : List Bool).map (fun b => !b)) ++
        [⟨0, 0, 0⟩, ⟨0, 0, 0⟩] :=
  ⟨⟨by decide,
      by norm_num [split_selected_mask, padded_grads, split_grad_test, fpGe, get_scaling,
        constReg1, mapReg, max3, sampleModel1],
      by norm_num [split_new_xyz, repeatRows, maskSelect, get_rotation, build_rotation,
        mulVec3, vadd, zipWith3, constReg1, mapReg, sampleModel1],
      by decide⟩,
    (densify_and_split_counts constReg1 sampleModel1 [FpVal.fin 1] (1 / 2) 1 (1 / 100) 0 none
      sampleOpt1 [⟨0, 0, 0⟩, ⟨0, 0, 0⟩] 2 [true] [⟨0, 0, 0⟩, ⟨0, 0, 0⟩]
      (by decide)
      (by norm_num [split_selected_mask, padded_grads, split_grad_test, fpGe, get_scaling,
        constReg1, mapReg, max3, sampleModel1])
      (by norm_num [split_new_xyz, repeatRows, maskSelect, get_rotation, build_rotation,
        mulVec3, vadd, zipWith3, constReg1, mapReg, sampleModel1])
      (by decide)).2.2.1⟩

theorem zipWith_or3 :
    ∀ (as bs cs : List Bool),
      List.zipWith (fun a b => a || b) (List.zipWith (fun a b => a || b) as bs) cs =
      zipWith3 (fun a b c => a || b || c) as bs cs
  | a :: as, b :: bs, c :: cs => by simp [zipWith3, zipWith_or3 as bs cs]
  | [], _, _ => by simp [zipWith3]
  | _ :: _, [], _ => by simp [zipWith3]
  | _ :: _, _ :: _, [] => by simp [zipWith3]

/-- C4 counterexample: with `max_screen_size` absent, a point whose max
scale exceeds `0.1 * E` and whose opacity is not below `min_opacity`
survives `densify_and_split` untouched: the absolute world-size test is
skipped when `max_screen_size` is not provided, contradicting the claim
that it applies uniformly in that case. -/
theorem split_worldsize_prune_counterexample :
    (1 / 10 : ℚ) * 1 < max3 ⟨1, 1, 1⟩ ∧
    ¬ ((1 / 2 : ℚ) < 1 / 4) ∧
    (densify_and_split constReg1 ⟨[⟨0, 0, 0⟩], [0], [0], [0]⟩ [FpVal.fin 0] 1 1 (1 / 100)
      (1 / 4) none [] [] 2).1.xyz = [⟨0, 0, 0⟩] := by
  refine ⟨by norm_num [max3], by norm_num, ?_⟩
  norm_num [densify_and_split, split_selected_mask, padded_grads, split_grad_test, fpGe,
    get_scaling, get_opacity, constReg1, mapReg, max3, split_new_xyz, zipWith3, repeatRows,
    maskSelect, get_rotation, densification_postfix, split_prune_filter, prune_points,
    split_pass2_mask, optTruthy, countTrue]

/-- C4 (amended): the second prune pass of `densify_and_split` removes,
uniformly over all surviving points (old or newly created), those whose
opacity is below `min_opacity`; the screen-size test
`max_radii2D > max_screen_size` and the absolute world-size test
`max(scale) > 0.1 * E` are both applied only when `max_screen_size` is
provided and nonzero — when it is absent or zero, only the opacity test
applies and the world-size test is skipped.  The pass filters all
parallel buffers with the same mask (rows of the pruned state are the
mask-selected rows). -/
theorem split_pass2_mask_amended (reg : Regressor) (m2 : GaussianModel) (mo se : ℚ)
    (mss : Option ℚ)
    (ha : m2.xyz_gradient_accum.length = m2.xyz.length)
    (hd : m2.denom.length = m2.xyz.length)
    (hr : m2.max_radii2D.length = m2.xyz.length) :
    (optTruthy mss = true →
      split_pass2_mask reg m2 mo mss se =
        zipWith3 (fun a b c => a || b || c)
          ((get_opacity reg m2.xyz).map (fun a => decide (a < mo)))
          (m2.max_radii2D.map (fun r2 => decide (mss.getD 0 < r2)))
          ((get_scaling reg m2.xyz).map (fun s => decide ((1 / 10 : ℚ) * se < max3 s)))) ∧
    (optTruthy mss = false →
      split_pass2_mask reg m2 mo mss se =
        (get_opacity reg m2.xyz).map (fun a => decide (a < mo))) ∧
    (prune_points m2 (split_pass2_mask reg m2 mo mss se)).rows =
      maskSelect m2.rows ((split_pass2_mask reg m2 mo mss se).map (fun b => !b)) := by
  have hmask : (split_pass2_mask reg m2 mo mss se).length = m2.xyz.length := by
    by_cases h : optTruthy mss = true
    · simp [split_pass2_mask, h, List.length_zipWith, List.length_map,
        get_opacity_length, get_scaling_length, hr]
    · simp at h
      simp [split_pass2_mask, h, List.length_map, get_opacity_length]
  refine ⟨?_, ?_, ?_⟩
  · intro h
    rw [split_pass2_mask, if_pos h]
    exact zipWith_or3 _ _ _
  · intro h
    rw [split_pass2_mask, if_neg (by simp [h])]
  · exact prune_points_rows m2 _ hmask.symm (by omega) (by omega) (by omega)

theorem split_pass2_mask_amended_witness :
    (sampleModel.xyz_gradient_accum.length = sampleModel.xyz.length ∧
      sampleModel.denom.length = sampleModel.xyz.length ∧
      sampleModel.max_radii2D.length = sampleModel.xyz.length) ∧
    (prune_points sampleModel (split_pass2_mask constReg1 sampleModel (1 / 4) (some 5) 1)).rows =
      maskSelect sampleModel.rows
        ((split_pass2_mask constReg1 sampleModel (1 / 4) (some 5) 1).map (fun b => !b)) :=
  ⟨⟨by decide, by decide, by decide⟩,
    (split_pass2_mask_amended constReg1 sampleModel (1 / 4) 1 (some 5)
      (by decide) (by decide) (by decide)).2.2⟩

/-- C5: `densify_and_prune` computes the averaged NaN-sanitized gradient
array exactly once, before clone, and passes that same array to both
`densify_and_clone` and `densify_and_split` (first conjunct: the
orchestration is definitionally split-after-clone on the same `grads`);
split zero-pads that pre-clone array to the post-clone point count, so
for every positive threshold the split-selection mask is false at every
index at or beyond the pre-clone count — in particular at every point
appended by clone in the same pass. -/
theorem densify_and_prune_same_grads (reg : Regressor) (m : GaussianModel)
    (mg mo e : ℚ) (mss : Option ℚ) (pd : ℚ) (opt : List OptEntry) (samples : List Vec3)
    (n : ℕ) (grads : List FpVal)
    (hgr : grads = averaged_grads m)
    (hpos : 0 < mg)
    (ha : m.xyz_gradient_accum.length = m.xyz.length)
    (hd : m.denom.length = m.xyz.length) :
    densify_and_prune reg m mg mo e mss pd opt samples n =
      densify_and_split reg (densify_and_clone reg m grads mg e pd opt).1 grads mg e pd mo mss
        (densify_and_clone reg m grads mg e pd opt).2 samples n ∧
    ∀ b ∈ (split_selected_mask reg (densify_and_clone reg m grads mg e pd opt).1.xyz
        grads mg e pd).drop grads.length, b = false := by
  subst hgr
  refine ⟨rfl, ?_⟩
  intro b hb
  have hM : (averaged_grads m).length = m.xyz.length := by
    simp [averaged_grads, List.length_zipWith, ha, hd]
  have hle : (averaged_grads m).length ≤
      (densify_and_clone reg m (averaged_grads m) mg e pd opt).1.xyz.length := by
    have : (densify_and_clone reg m (averaged_grads m) mg e pd opt).1.xyz =
        m.xyz ++ maskSelect m.xyz (clone_selected_mask reg m.xyz (averaged_grads m) mg e pd) :=
      rfl
    rw [this, List.length_append, hM]
    omega
  rw [split_selected_mask, zipWith_drop] at hb
  rw [padded_grads_of_le _ _ hle, List.drop_left] at hb
  rcases mem_zipWith_exists hb with ⟨a, hmem, y, _, rfl⟩
  have ha0 : a = FpVal.fin 0 := List.eq_of_mem_replicate hmem
  subst ha0
  simp [split_grad_test, fpGe, not_le.mpr hpos]

theorem densify_and_prune_same_grads_witness :
    (([] : List FpVal) = averaged_grads ⟨[], [], [], []⟩ ∧ (0 : ℚ) < 1) ∧
    densify_and_prune constReg1 ⟨[], [], [], []⟩ 1 0 1 none (1 / 100) [] [] 2 =
      densify_and_split constReg1
        (densify_and_clone constReg1 ⟨[], [], [], []⟩ [] 1 1 (1 / 100) []).1 [] 1 1 (1 / 100)
        0 none (densify_and_clone constReg1 ⟨[], [], [], []⟩ [] 1 1 (1 / 100) []).2 [] 2 :=
  ⟨⟨by decide, by decide⟩,
    (densify_and_prune_same_grads constReg1 ⟨[], [], [], []⟩ 1 0 1 none (1 / 100) [] [] 2 []
      (by decide) (by decide) (by decide) (by decide)).1⟩

/-- C7 counterexample: on a selected parent whose regressor scale is
`(1,1,1)`, the two points generated by `densify_and_split` also have
regressor scale `(1,1,1)` — not the parent scale divided by
`0.8 * N_split`, which would be `(5/8, 5/8, 5/8)`.  The source never
stores a shrunk scale for children (its `new_scaling` line is commented
out); scale is recomputed from the stored position by the regressor. -/
theorem split_child_scale_counterexample :
    get_scaling constReg1 [⟨0, 0, 0⟩] = [⟨1, 1, 1⟩] ∧
    get_scaling constReg1 (densify_and_split constReg1 ⟨[⟨0, 0, 0⟩], [0], [0], [0]⟩
        [FpVal.fin 1] (1 / 2) 1 (1 / 100) 0 none [] [⟨0, 0, 0⟩, ⟨0, 0, 0⟩] 2).1.xyz =
      [⟨1, 1, 1⟩, ⟨1, 1, 1⟩] ∧
    smul3 (1 / ((8 / 10 : ℚ) * 2)) ⟨1, 1, 1⟩ = ⟨5 / 8, 5 / 8, 5 / 8⟩ ∧
    (⟨1, 1, 1⟩ : Vec3) ≠ ⟨5 / 8, 5 / 8, 5 / 8⟩ := by
  refine ⟨by norm_num [get_scaling, constReg1, mapReg], ?_, by norm_num [smul3],
    by simp only [ne_eq, Vec3.mk.injEq]; norm_num⟩
  norm_num [densify_and_split, split_selected_mask, padded_grads, split_grad_test, fpGe,
    get_scaling, get_opacity, get_rotation, constReg1, mapReg, max3, split_new_xyz, zipWith3,
    repeatRows, maskSelect, build_rotation, mulVec3, vadd, densification_postfix,
    split_prune_filter, prune_points, split_pass2_mask, optTruthy, countTrue,
    List.replicate_succ]

/-- C7 (amended): a new point generated by `densify_and_split` carries
only a stored position, namely the parent rotation matrix applied to its
Gaussian sample plus the parent position (child `j` uses the selected
parent at index `j mod |selected|`); its scale, rotation and opacity are
not stored or inherited — they are recomputed by the regressor from the
stored positions on access — and no `0.8 * N_split` scale shrink is
applied anywhere. -/
theorem split_new_xyz_amended (reg : Regressor) (xyz : List Vec3) (sel : List Bool)
    (samples : List Vec3) (n j : ℕ) (q : Quat) (p smp : Vec3)
    (hsel : sel.length = xyz.length)
    (hj : j < n * countTrue sel)
    (hq : (maskSelect (get_rotation reg xyz) sel)[j % countTrue sel]? = some q)
    (hp : (maskSelect xyz sel)[j % countTrue sel]? = some p)
    (hsmp : samples[j]? = some smp) :
    (split_new_xyz reg xyz sel samples n)[j]? =
      some (vadd (mulVec3 (build_rotation q) smp) p) := by
  have hrotlen : (maskSelect (get_rotation reg xyz) sel).length = countTrue sel :=
    maskSelect_length _ _ (by rw [get_rotation_length]; exact hsel.symm)
  have hxlen : (maskSelect xyz sel).length = countTrue sel :=
    maskSelect_length _ _ hsel.symm
  have hmaplen : ((maskSelect (get_rotation reg xyz) sel).map build_rotation).length =
      countTrue sel := by rw [List.length_map, hrotlen]
  have hrots : (repeatRows n ((maskSelect (get_rotation reg xyz) sel).map build_rotation))[j]? =
      some (build_rotation q) := by
    rw [getElem?_repeatRows n _ j (by rw [hmaplen]; exact hj), hmaplen, List.getElem?_map, hq]
    rfl
  have hpx : (repeatRows n (maskSelect xyz sel))[j]? = some p := by
    rw [getElem?_repeatRows n _ j (by rw [hxlen]; exact hj), hxlen, hp]
  exact zipWith3_getElem?_some _ _ _ _ j _ _ _ hrots hsmp hpx

theorem split_new_xyz_amended_witness :
    (([true] : List Bool).length = ([⟨0, 0, 0⟩] : List Vec3).length ∧
      1 < 2 * countTrue [true] ∧
      (maskSelect (get_rotation constReg1 [⟨0, 0, 0⟩]) [true])[1 % countTrue [true]]? =
        some ⟨1, 0, 0, 0⟩ ∧
      (maskSelect ([⟨0, 0, 0⟩] : List Vec3) [true])[1 % countTrue [true]]? = some ⟨0, 0, 0⟩ ∧
      ([⟨0, 0, 0⟩, ⟨0, 0, 0⟩] : List Vec3)[1]? = some ⟨0, 0, 0⟩) ∧
    (split_new_xyz constReg1 [⟨0, 0, 0⟩] [true] [⟨0, 0, 0⟩, ⟨0, 0, 0⟩] 2)[1]? =
      some (vadd (mulVec3 (build_rotation ⟨1, 0, 0, 0⟩) ⟨0, 0, 0⟩) ⟨0, 0, 0⟩) :=
  ⟨⟨by decide, by decide, by decide, by decide, by decide⟩,
    split_new_xyz_amended constReg1 [⟨0, 0, 0⟩] [true] [⟨0, 0, 0⟩, ⟨0, 0, 0⟩] 2 1
      ⟨1, 0, 0, 0⟩ ⟨0, 0, 0⟩ ⟨0, 0, 0⟩
      (by decide) (by decide) (by decide) (by decide) (by decide)⟩

/-- C8 counterexample: NaN sanitization does not remove infinities.
With accumulator `[1]` and count `[0]` (counts nonnegative elementwise)
the averaged sanitized gradient array is `[+Inf]`, so the claim that the
result never contains Inf under `grad_count >= 0` alone fails. -/
theorem averaged_grads_inf_counterexample :
    (∀ d ∈ (GaussianModel.denom ⟨[⟨0, 0, 0⟩], [1], [0], [0]⟩), 0 ≤ d) ∧
    averaged_grads ⟨[⟨0, 0, 0⟩], [1], [0], [0]⟩ = [FpVal.posInf] := by decide

/-- C8 (amended): for every accumulator state with nonnegative entries
where a zero observation count entails a zero accumulator — the
invariant established by the zero initialization and maintained by
`add_densification_stats` — the averaged NaN-sanitized gradient array
equals the exact elementwise division with zero at zero-count positions
(hence contains no NaN and no Inf: every entry is finite, and zero-count
positions yield zero), and the invariant is preserved by further
`add_densification_stats` calls with nonnegative norms. -/
theorem averaged_grads_amended (m : GaussianModel) (h : StatsInv m) :
    averaged_grads m =
      List.zipWith (fun a d => if d = 0 then FpVal.fin 0 else FpVal.fin (a / d))
        m.xyz_gradient_accum m.denom ∧
    (∀ g ∈ averaged_grads m, ∃ q, g = FpVal.fin q) ∧
    (∀ (norms : List ℚ) (filt : List Bool), (∀ x ∈ norms, 0 ≤ x) →
      StatsInv (add_densification_stats m norms filt)) := by
  have heq : averaged_grads m =
      List.zipWith (fun a d => if d = 0 then FpVal.fin 0 else FpVal.fin (a / d))
        m.xyz_gradient_accum m.denom := by
    refine zipWith_congr_zip (fun pr hpr => ?_)
    rcases h pr hpr with ⟨h1, h2, h3⟩
    by_cases hz : pr.2 = 0
    · have h0 := h3 hz
      simp [fpDiv, hz, h0, sanitizeNaN]
    · simp [fpDiv, hz, sanitizeNaN]
  refine ⟨heq, ?_, ?_⟩
  · intro g hg
    rw [heq] at hg
    rcases mem_zipWith_exists hg with ⟨a, _, d, _, rfl⟩
    by_cases hz : d = 0
    · exact ⟨0, by simp [hz]⟩
    · exact ⟨a / d, by simp [hz]⟩
  · intro norms filt hn
    exact statsPair_addInc _ _ _ _ h hn

theorem averaged_grads_amended_witness :
    StatsInv sampleModel1 ∧
    averaged_grads sampleModel1 =
      List.zipWith (fun a d => if d = 0 then FpVal.fin 0 else FpVal.fin (a / d))
        sampleModel1.xyz_gradient_accum sampleModel1.denom :=
  ⟨by decide, (averaged_grads_amended sampleModel1 (by decide)).1⟩

theorem quadForm_mul_transpose (l : Mat3) (v : Vec3) :
    quadForm (matMul l (transpose3 l)) v =
      (l.m00 * v.x + l.m10 * v.y + l.m20 * v.z) ^ 2 +
      (l.m01 * v.x + l.m11 * v.y + l.m21 * v.z) ^ 2 +
      (l.m02 * v.x + l.m12 * v.y + l.m22 * v.z) ^ 2 := by
  simp only [quadForm, matMul, transpose3]
  ring

theorem symm3_mul_transpose (l : Mat3) : Mat3.symm3 (matMul l (transpose3 l)) := by
  refine ⟨?_, ?_, ?_⟩ <;> simp only [Mat3.symm3, matMul, transpose3] <;> ring

theorem unpackSym_strip_symmetric (m : Mat3) (h : Mat3.symm3 m) :
    unpackSym (strip_symmetric m) = m := by
  obtain ⟨h1, h2, h3⟩ := h
  cases m
  simp_all [unpackSym, strip_symmetric, strip_lowerdiag]

theorem smul3_one (v : Vec3) : smul3 1 v = v := by
  cases v; simp [smul3]

/-- C9: for every scale vector, every nonzero rotation quaternion and
every modifier, the 6 packed values produced by the covariance
activation unpack to exactly `L @ Lᵀ` with
`L = R(quat) @ diag(modifier * scale)`, which is a symmetric positive
semi-definite matrix; and with `modifier = 1` the activation returns the
unmodified covariance built from scale and rotation alone. -/
theorem covariance_activation_spec (scaling : Vec3) (scaling_modifier : ℚ) (rotation : Quat)
    (hq : rotation ≠ ⟨0, 0, 0, 0⟩) :
    unpackSym (build_covariance_from_scaling_rotation scaling scaling_modifier rotation) =
      matMul (build_scaling_rotation (smul3 scaling_modifier scaling) rotation)
        (transpose3 (build_scaling_rotation (smul3 scaling_modifier scaling) rotation)) ∧
    Mat3.symm3 (matMul (build_scaling_rotation (smul3 scaling_modifier scaling) rotation)
      (transpose3 (build_scaling_rotation (smul3 scaling_modifier scaling) rotation))) ∧
    Mat3.psd (matMul (build_scaling_rotation (smul3 scaling_modifier scaling) rotation)
      (transpose3 (build_scaling_rotation (smul3 scaling_modifier scaling) rotation))) ∧
    build_covariance_from_scaling_rotation scaling 1 rotation =
      strip_symmetric (matMul (build_scaling_rotation scaling rotation)
        (transpose3 (build_scaling_rotation scaling rotation))) := by
  refine ⟨unpackSym_strip_symmetric _ (symm3_mul_transpose _), symm3_mul_transpose _, ?_, ?_⟩
  · intro v
    rw [quadForm_mul_transpose]
    positivity
  · simp only [build_covariance_from_scaling_rotation, smul3_one]

theorem covariance_activation_spec_witness :
    (⟨1, 0, 0, 0⟩ : Quat) ≠ ⟨0, 0, 0, 0⟩ ∧
    0 ≤ quadForm (matMul (build_scaling_rotation (smul3 2 ⟨1, 2, 3⟩) ⟨1, 0, 0, 0⟩)
      (transpose3 (build_scaling_rotation (smul3 2 ⟨1, 2, 3⟩) ⟨1, 0, 0, 0⟩))) ⟨1, 1, 1⟩ :=
  ⟨by decide, (covariance_activation_spec ⟨1, 2, 3⟩ 2 ⟨1, 0, 0, 0⟩ (by decide)).2.2.1 ⟨1, 1, 1⟩⟩

/-- C10: on gradient arrays whose entries are finite and nonnegative (the
shape and sign `add_densification_stats` guarantees, since it accumulates
norms starting from zero), the per-entry gradient test of
`densify_and_clone` (row norm over the last dimension `>= threshold`)
and the per-entry test of `densify_and_split` (the squeezed raw value
`>= threshold`) select exactly the same indices. -/
theorem clone_split_grad_tests_agree (grads : List FpVal) (t : ℚ)
    (h : ∀ g ∈ grads, nonnegFin g = true) :
    grads.map (fun g => clone_grad_test g t) = grads.map (fun g => split_grad_test g t) := by
  refine List.map_congr_left (fun g hg => ?_)
  have hng := h g hg
  cases g with
  | fin q =>
      have hq : 0 ≤ q := by simpa [nonnegFin] using hng
      simp [clone_grad_test, split_grad_test, fpAbs, fpGe, abs_of_nonneg hq]
  | posInf => simp [nonnegFin] at hng
  | negInf => simp [nonnegFin] at hng
  | nan => simp [nonnegFin] at hng

theorem clone_split_grad_tests_agree_witness :
    (∀ g ∈ ([FpVal.fin 0, FpVal.fin 2] : List FpVal), nonnegFin g = true) ∧
    ([FpVal.fin 0, FpVal.fin 2] : List FpVal).map (fun g => clone_grad_test g 1) =
      ([FpVal.fin 0, FpVal.fin 2] : List FpVal).map (fun g => split_grad_test g 1) :=
  ⟨by decide, clone_split_grad_tests_agree [FpVal.fin 0, FpVal.fin 2] 1 (by decide)⟩
